import Mathlib

/-!
Verification of the BSA (Bethesda Softworks Archive) version-104 decoder.

This file gives a shallow embedding of `src/lib.rs` of the `bsa-parser`
crate: the TES4 path-hash functions (`tes4_hash`, `str_hash`), the
hash-indexed map (`BSAHashMap`), the string-decoding primitives
(`read_bzstring`, `read_nul_string`) and the sequential `v104` decoder.

Modelling conventions:
- Machine integers are `Nat` with explicit `% 2^w` at every point where the
  source's arithmetic can wrap (release-mode semantics: wrapping, not the
  debug-mode overflow panic).  In particular `name.len() - 2` on a `usize`
  wraps for a one-byte name, making `get(huge)` return `None` so the byte
  defaults to 0, which is what the source's `unwrap_or(&0)` intends.
- A byte source is a `List Nat` of byte values; reads fail with
  `PError.ioError` on exhaustion.
- Rust panics (`Option::unwrap`, `Result::unwrap`, string-slice
  char-boundary violations) and the `Vec::set_len` underflow in
  `read_bzstring` are modelled as distinguished error outcomes, since the
  caller observes an abort rather than a returned `Err` value.
-/

/-- A byte source: the sequence of bytes still to be consumed. -/
abbrev Bytes := List Nat

/-- Terminal outcomes of the decoder besides success.  `ioError` models the
`chunk_parser::Error` value actually returned through `Result` (reads past
the end of the input).  The remaining constructors are not returned error
values: they model process aborts.  `panicUnwrapNone` is `Option::unwrap`
on `None` (missing folder-hash lookup), `panicUnwrapErr` is
`Result::unwrap` on a `Utf8Error` (`CStr::to_str`), `panicSliceBoundary`
is a `str` range-slice whose endpoint is not a char boundary, and
`ubSetLen` is the `v.set_len(length - 1)` usize underflow in
`read_bzstring` when the length byte is 0 (undefined behaviour in release
builds, an arithmetic-overflow panic in debug builds). -/
inductive PError where
  | ioError
  | panicUnwrapNone
  | panicUnwrapErr
  | panicSliceBoundary
  | ubSetLen
deriving DecidableEq

/-- Classifies the outcomes that the caller receives as an `Err` value of
the decoder's `Result`; panics and undefined behaviour are aborts, not
returned values. -/
def PError.isReturnedError : PError → Bool
  | .ioError => true
  | _ => false

instance {ε α : Type} [DecidableEq ε] [DecidableEq α] : DecidableEq (Except ε α) := fun
  | .ok a, .ok b =>
    if h : a = b then .isTrue (by rw [h]) else .isFalse (fun hc => by cases hc; exact h rfl)
  | .error e, .error f =>
    if h : e = f then .isTrue (by rw [h]) else .isFalse (fun hc => by cases hc; exact h rfl)
  | .ok _, .error _ => .isFalse (fun hc => by cases hc)
  | .error _, .ok _ => .isFalse (fun hc => by cases hc)

/-- Modelled from the spec: the BinaryCursor (`chunk_parser`) primitive
`read::<u8>()` — consume one byte, `ioError` on exhaustion. -/
def readU8 : Bytes → Except PError (Nat × Bytes)
  | [] => .error .ioError
  | b :: s => .ok (b, s)

/-- Modelled from the spec: `read::<u32>()` — four bytes, little-endian. -/
def readU32 : Bytes → Except PError (Nat × Bytes)
  | b0 :: b1 :: b2 :: b3 :: s =>
    .ok (b0 + b1 * 0x100 + b2 * 0x10000 + b3 * 0x1000000, s)
  | _ => .error .ioError

/-- Modelled from the spec: `read::<u64>()` — eight bytes, little-endian. -/
def readU64 : Bytes → Except PError (Nat × Bytes)
  | b0 :: b1 :: b2 :: b3 :: b4 :: b5 :: b6 :: b7 :: s =>
    .ok (b0 + b1 * 0x100 + b2 * 0x10000 + b3 * 0x1000000
      + b4 * 0x100000000 + b5 * 0x10000000000 + b6 * 0x1000000000000
      + b7 * 0x100000000000000, s)
  | _ => .error .ioError

/-- Modelled from the spec: `std::io::Read::read_exact` into an `n`-byte
buffer — yields exactly `n` bytes or fails with an I/O error. -/
def readExact (n : Nat) (s : Bytes) : Except PError (Bytes × Bytes) :=
  if s.length < n then .error .ioError else .ok (s.take n, s.drop n)

/-- `str_hash` from `src/lib.rs` lines 51–58: 32-bit rolling hash.
`hash = hash.wrapping_mul(0x1003F); hash += char` (the `+=` wraps in
release builds). -/
def str_hash (s : Bytes) : Nat :=
  s.foldl (fun hash char => (hash * 0x1003F % 0x100000000 + char) % 0x100000000) 0

/-- A byte is a UTF-8 continuation byte (`b & 0xC0 == 0x80`). -/
def contByte (b : Nat) : Bool := 0x80 ≤ b && b < 0xC0

/-- `str::is_char_boundary` of the Rust standard library: position 0 and
the length are boundaries, an interior position is a boundary iff the byte
there is not a continuation byte, positions past the end are not. -/
def isCharBoundary (s : Bytes) (i : Nat) : Bool :=
  if i = 0 then true
  else if i = s.length then true
  else if i < s.length then !contByte (s.getD i 0)
  else false

/-- The extension match of `tes4_hash` line 36:
`match &ext[1..] { "nif" => 1, "kf" => 2, "dds" => 3, "wav" => 4, _ => 0 }`.
Note that only the bytes after the first one are compared. -/
def extIndex (ext : Bytes) : Nat :=
  let t := ext.drop 1
  if t = [0x6E, 0x69, 0x66] then 1
  else if t = [0x6B, 0x66] then 2
  else if t = [0x64, 0x64, 0x73] then 3
  else if t = [0x77, 0x61, 0x76] then 4
  else 0

/-- The name block of `tes4_hash` (`src/lib.rs` lines 19–31).  The seed is
`u32::from_le_bytes([last, second_last_or_0, len as u8, first])`; when the
length exceeds 3 the rolling hash of `&name[1..len-2]` is added shifted by
32 bits.  That string slice panics when byte position 1 or `len - 2` is
not a char boundary. -/
def tes4NameHash (name : Bytes) : Except PError Nat :=
  if name = [] then .ok 0
  else
    let seed := name.getLast?.getD 0
      + (if 2 ≤ name.length then name.getD (name.length - 2) 0 else 0) * 0x100
      + name.length % 0x100 * 0x10000
      + name.headD 0 * 0x1000000
    if 3 < name.length then
      if isCharBoundary name 1 && isCharBoundary name (name.length - 2) then
        .ok ((seed + str_hash ((name.drop 1).take (name.length - 3)) * 0x100000000)
          % 0x10000000000000000)
      else .error .panicSliceBoundary
    else .ok seed

/-- `tes4_hash` from `src/lib.rs` lines 16–49.  The extension block first
adds `str_hash(ext) << 32` (u64 wrapping `+=`), then slices `&ext[1..]`
(char-boundary panic possible) and, when the sliced extension is
recognized, applies the byte-scrambling transform of lines 38–45 with u8
wrapping arithmetic, masking the low word with `!0xFF00FFFF`. -/
def tes4_hash (name ext : Bytes) : Except PError Nat :=
  match tes4NameHash name with
  | .error e => .error e
  | .ok h =>
    if ext = [] then .ok h
    else
      let hash := (h + str_hash ext * 0x100000000) % 0x10000000000000000
      if isCharBoundary ext 1 then
        let i := extIndex ext
        if i = 0 then .ok hash
        else
          let a := ((i &&& 0xFC) <<< 5 + (hash &&& 0xFF000000) >>> 24) % 0x100
          let b := ((i &&& 0xFE) <<< 6 % 0x100 + (hash &&& 0xFF)) % 0x100
          let c := (i <<< 7 % 0x100 + (hash &&& 0xFF00) >>> 8) % 0x100
          .ok (((hash &&& 0xFFFFFFFF00FF0000)
            + (a <<< 24 ||| b ||| c <<< 8)) % 0x10000000000000000)
      else .error .panicSliceBoundary

/-- Modelled from the spec (testable property of `rolling_hash`): the
accumulator fold `acc = acc * 0x1003F + b` with 32-bit wraparound
arithmetic, as one truncation per step. -/
def rolling_hash_spec (s : Bytes) : Nat :=
  s.foldl (fun acc b => (acc * 0x1003F + b) % 0x100000000) 0

/-- Modelled from the spec (§4.1 step 3, second transform), in the spec's
own phrasing: `x0 = (result >> 24) & 0xFF`, `x1 = result & 0xFF`,
`x2 = (result >> 8) & 0xFF`; `a`, `b`, `c` each truncated to one byte;
byte positions 0, 1 and 3 of the low word cleared (byte 2 kept) and
`(a << 24) | b | (c << 8)` added into the u64 result. -/
def c2Transform (i h : Nat) : Nat :=
  if i = 0 then h
  else
    let x0 := h >>> 24 &&& 0xFF
    let x1 := h &&& 0xFF
    let x2 := h >>> 8 &&& 0xFF
    let a := ((i &&& 0xFC) <<< 5 + x0) % 0x100
    let b := ((i &&& 0xFE) <<< 6 + x1) % 0x100
    let c := (i <<< 7 + x2) % 0x100
    ((h &&& 0xFFFFFFFF00FF0000) + (a <<< 24 ||| b ||| c <<< 8)) % 0x10000000000000000

/-- UTF-8 validity of a byte sequence, with the first byte classifying the
sequence length and the RFC 3629 second-byte restrictions (no overlongs,
no surrogates, max U+10FFFF); models the check done by `CStr::to_str`.
The first argument is fuel, instantiated with the list length. -/
def utf8ValidFuel : Nat → Bytes → Bool
  | _, [] => true
  | 0, _ :: _ => false
  | f + 1, b :: rest =>
    if b ≤ 0x7F then utf8ValidFuel f rest
    else if b < 0xC2 then false
    else if b ≤ 0xDF then
      match rest with
      | c1 :: rest2 => contByte c1 && utf8ValidFuel f rest2
      | [] => false
    else if b ≤ 0xEF then
      match rest with
      | c1 :: c2 :: rest3 =>
        (if b = 0xE0 then 0xA0 ≤ c1 && c1 ≤ 0xBF
         else if b = 0xED then 0x80 ≤ c1 && c1 ≤ 0x9F
         else contByte c1) && contByte c2 && utf8ValidFuel f rest3
      | _ => false
    else if b ≤ 0xF4 then
      match rest with
      | c1 :: c2 :: c3 :: rest4 =>
        (if b = 0xF0 then 0x90 ≤ c1 && c1 ≤ 0xBF
         else if b = 0xF4 then 0x80 ≤ c1 && c1 ≤ 0x8F
         else contByte c1) && contByte c2 && contByte c3 && utf8ValidFuel f rest4
      | _ => false
    else false

/-- `str::from_utf8` succeeds on these byte lists (`CStr::to_str`). -/
def utf8Valid (s : Bytes) : Bool := utf8ValidFuel s.length s

/-- `BSAHashMap` (`src/lib.rs` lines 79–99): a map keyed directly by the
`u64` hash value, modelled as an association list in which `insert`
replaces any existing binding for the key (`HashMap::insert`). -/
abbrev BSAHashMap (V : Type) := List (Nat × V)

/-- `BSAHashMap::insert` — direct insert into the u64 hash index. -/
def BSAHashMap.insert {V : Type} (m : BSAHashMap V) (k : Nat) (v : V) : BSAHashMap V :=
  (k, v) :: m.filter (fun p => p.1 != k)

/-- Raw lookup of the underlying `HashMap` by u64 key. -/
def BSAHashMap.find? {V : Type} (m : BSAHashMap V) (k : Nat) : Option V :=
  (List.find? (fun p => p.1 == k) m).map Prod.snd

/-- `BSAHashMap::get` — retrieve data indexed by string key, hashing with
`tes4_hash(k, "")`; the hash itself can abort on a char-boundary panic. -/
def BSAHashMap.get {V : Type} (m : BSAHashMap V) (k : Bytes) : Except PError (Option V) :=
  match tes4_hash k [] with
  | .error e => .error e
  | .ok h => .ok (BSAHashMap.find? m h)

/-- Modelled from the spec: the header of `esm_bindings::bsa::BSAHeader`.
The spec pins, in file order, little-endian u32 fields: version,
archive-flags, folder count, file count, then aggregate name-length
bookkeeping totals not consumed by the decoder. -/
structure BSAHeader where
  version : Nat
  archive_flags : Nat
  folder_count : Nat
  file_count : Nat
  total_folder_name_length : Nat
  total_file_name_length : Nat
deriving DecidableEq

/-- Modelled from the spec: `esm_bindings::bsa::BSAFolderRecord`, the
on-wire 16-byte record {name_hash: u64, count: u32, offset: u32}. -/
structure BSAFolderRecord where
  name_hash : Nat
  count : Nat
  offset : Nat
deriving DecidableEq

/-- Modelled from the spec: `esm_bindings::bsa::BSAFileRecord`, the
on-wire 16-byte record {name_hash: u64, size: u32, offset: u32}. -/
structure BSAFileRecord where
  name_hash : Nat
  size : Nat
  offset : Nat
deriving DecidableEq

/-- `BSAFolder` (`src/lib.rs` lines 104–108): retained folder summary. -/
structure BSAFolder where
  count : Nat
  offset : Nat
deriving DecidableEq

/-- `BSAFile` (`src/lib.rs` lines 111–115): retained file summary. -/
structure BSAFile where
  size : Nat
  offset : Nat
deriving DecidableEq

/-- `BSAArchive` (`src/lib.rs` lines 118–123) without the reopened file
handle, which has no observable decoded content. -/
structure BSAArchive where
  header : BSAHeader
  folders : BSAHashMap BSAFolder
  files : BSAHashMap BSAFile
deriving DecidableEq

/-- Decode the fixed header record (`self.read::<BSAHeader>()`). -/
def readBSAHeader (s : Bytes) : Except PError (BSAHeader × Bytes) :=
  match readU32 s with
  | .error e => .error e
  | .ok (version, s) =>
  match readU32 s with
  | .error e => .error e
  | .ok (flags, s) =>
  match readU32 s with
  | .error e => .error e
  | .ok (fc, s) =>
  match readU32 s with
  | .error e => .error e
  | .ok (flc, s) =>
  match readU32 s with
  | .error e => .error e
  | .ok (tfn, s) =>
  match readU32 s with
  | .error e => .error e
  | .ok (tln, s) => .ok (⟨version, flags, fc, flc, tfn, tln⟩, s)

/-- Decode one fixed `BSAFolderRecord` (`self.read::<BSAFolderRecord>()`). -/
def readBSAFolderRecord (s : Bytes) : Except PError (BSAFolderRecord × Bytes) :=
  match readU64 s with
  | .error e => .error e
  | .ok (h, s) =>
  match readU32 s with
  | .error e => .error e
  | .ok (c, s) =>
  match readU32 s with
  | .error e => .error e
  | .ok (o, s) => .ok (⟨h, c, o⟩, s)

/-- Decode one fixed `BSAFileRecord` (`self.read::<BSAFileRecord>()`). -/
def readBSAFileRecord (s : Bytes) : Except PError (BSAFileRecord × Bytes) :=
  match readU64 s with
  | .error e => .error e
  | .ok (h, s) =>
  match readU32 s with
  | .error e => .error e
  | .ok (sz, s) =>
  match readU32 s with
  | .error e => .error e
  | .ok (o, s) => .ok (⟨h, sz, o⟩, s)

/-- `read_bzstring` (`src/lib.rs` lines 133–142): one length byte `L`,
then exactly `L` bytes are read; `v.set_len(length - 1)` keeps the first
`L - 1` of them as the content.  For `L = 0` the `length - 1` usize
subtraction underflows: `set_len(usize::MAX)` is undefined behaviour
(debug builds panic on the subtraction), modelled as `ubSetLen`. -/
def read_bzstring (s : Bytes) : Except PError (Bytes × Bytes) :=
  match readU8 s with
  | .error e => .error e
  | .ok (length, s) =>
    match readExact length s with
    | .error e => .error e
    | .ok (buf, s) =>
      if length = 0 then .error .ubSetLen
      else .ok (buf.take (length - 1), s)

/-- `read_nul_string` (`src/lib.rs` lines 145–153): bytes up to and
excluding a nul terminator, which is consumed; exhausting the input before
a nul fails with the I/O error of the failed `read`. -/
def read_nul_string : Bytes → Except PError (Bytes × Bytes)
  | [] => .error .ioError
  | b :: s =>
    if b = 0 then .ok ([], s)
    else
      match read_nul_string s with
      | .error e => .error e
      | .ok (v, s') => .ok (b :: v, s')

/-- The folder-record loop of `v104` (`src/lib.rs` lines 163–168):
`folder_count` records, each inserted by its stored hash. -/
def readFolderRecordsLoop : Nat → BSAHashMap BSAFolder → Bytes →
    Except PError (BSAHashMap BSAFolder × Bytes)
  | 0, folders, s => .ok (folders, s)
  | n + 1, folders, s =>
    match readBSAFolderRecord s with
    | .error e => .error e
    | .ok (r, s) =>
      readFolderRecordsLoop n (folders.insert r.name_hash ⟨r.count, r.offset⟩) s

/-- The per-folder file-record loop of `v104` (`src/lib.rs` lines
175–180): `count` records inserted by their stored hash. -/
def readFileRecordsLoop : Nat → BSAHashMap BSAFile → Bytes →
    Except PError (BSAHashMap BSAFile × Bytes)
  | 0, files, s => .ok (files, s)
  | n + 1, files, s =>
    match readBSAFileRecord s with
    | .error e => .error e
    | .ok (r, s) =>
      readFileRecordsLoop n (files.insert r.name_hash ⟨r.size, r.offset⟩) s

/-- The folder-name loop of `v104` (`src/lib.rs` lines 170–182): for each
folder, a length-prefixed name is decoded, `name.to_str().unwrap()` panics
on invalid UTF-8, `folders.get(..)` hashes the name (possible slice
panic), `.unwrap()` panics when the hash is absent, and the folder's
declared count of file records is then read inline.  The `push`/`pop`
scope markers of the cursor do not consume input and are omitted. -/
def readFolderNamesLoop : Nat → BSAHashMap BSAFolder → BSAHashMap BSAFile → Bytes →
    Except PError (BSAHashMap BSAFile × Bytes)
  | 0, _, files, s => .ok (files, s)
  | n + 1, folders, files, s =>
    match read_bzstring s with
    | .error e => .error e
    | .ok (name, s) =>
      if !utf8Valid name then .error .panicUnwrapErr
      else
        match folders.get name with
        | .error e => .error e
        | .ok none => .error .panicUnwrapNone
        | .ok (some folder) =>
          match readFileRecordsLoop folder.count files s with
          | .error e => .error e
          | .ok (files, s) => readFolderNamesLoop n folders files s

/-- The flat filename list loop of `v104` (`src/lib.rs` lines 186–189):
`file_count` nul-terminated strings read back-to-back. -/
def readFilenameListLoop : Nat → Bytes → Except PError Bytes
  | 0, s => .ok s
  | n + 1, s =>
    match read_nul_string s with
    | .error e => .error e
    | .ok (_, s) => readFilenameListLoop n s

/-- The guarded filename-list phase of `v104` (`src/lib.rs` lines
184–190): run iff archive-flags bit 0x2 is set, otherwise read nothing. -/
def readOptionalFilenameList (archive_flags file_count : Nat) (s : Bytes) :
    Except PError Bytes :=
  if archive_flags &&& 0x2 ≠ 0 then readFilenameListLoop file_count s else .ok s

/-- The body of `v104` after the header: folder records, folder names with
inline file records, optional filename list.  Only the archive-flags,
folder-count and file-count header fields are consulted. -/
def v104body (archive_flags folder_count file_count : Nat) (s : Bytes) :
    Except PError (BSAHashMap BSAFolder × BSAHashMap BSAFile × Bytes) :=
  match readFolderRecordsLoop folder_count [] s with
  | .error e => .error e
  | .ok (folders, s) =>
    match readFolderNamesLoop folder_count folders [] s with
    | .error e => .error e
    | .ok (files, s) =>
      match readOptionalFilenameList archive_flags file_count s with
      | .error e => .error e
      | .ok s => .ok (folders, files, s)

/-- `BSAParser::v104` (`src/lib.rs` lines 156–197) over a byte source,
also exposing the unconsumed suffix of the input.  The final reopening of
the reader is a filesystem artefact with no decoded content and is
modelled as always succeeding. -/
def v104run (s : Bytes) : Except PError (BSAArchive × Bytes) :=
  match readBSAHeader s with
  | .error e => .error e
  | .ok (header, s) =>
    match v104body header.archive_flags header.folder_count header.file_count s with
    | .error e => .error e
    | .ok (folders, files, s) => .ok (⟨header, folders, files⟩, s)

/-- The caller-visible result of `BSAParser::v104`. -/
def v104 (s : Bytes) : Except PError BSAArchive :=
  (v104run s).map Prod.fst

/-- The little-endian u32 value of the first four entries of a list. -/
def u32v (l : Bytes) : Nat :=
  l.getD 0 0 + l.getD 1 0 * 0x100 + l.getD 2 0 * 0x10000 + l.getD 3 0 * 0x1000000

/-- A 43-byte archive whose single folder name decodes to the byte 0xFE,
which is not valid UTF-8: header (folder_count 1), one folder record with
hash 5, then the length-prefixed name `[2, 0xFE, 0]`. -/
def c7bytes : Bytes :=
  [104, 0, 0, 0, 0, 0, 0, 0, 1, 0, 0, 0, 0, 0, 0, 0, 0, 0, 0, 0, 0, 0, 0, 0]
  ++ [5, 0, 0, 0, 0, 0, 0, 0, 0, 0, 0, 0, 0, 0, 0, 0]
  ++ [2, 0xFE, 0]

/-- A 44-byte archive whose single folder record stores hash 5 but whose
folder name "aa" hashes to 1627545953: header (folder_count 1), one
folder record, then the length-prefixed name `[3, 97, 97, 0]`. -/
def c6bytes : Bytes :=
  [104, 0, 0, 0, 0, 0, 0, 0, 1, 0, 0, 0, 0, 0, 0, 0, 0, 0, 0, 0, 0, 0, 0, 0]
  ++ [5, 0, 0, 0, 0, 0, 0, 0, 0, 0, 0, 0, 0, 0, 0, 0]
  ++ [3, 97, 97, 0]

/-- A 43-byte archive like `c7bytes` but with folder name byte 0xFF. -/
def c9bytes : Bytes :=
  [104, 0, 0, 0, 0, 0, 0, 0, 1, 0, 0, 0, 0, 0, 0, 0, 0, 0, 0, 0, 0, 0, 0, 0]
  ++ [5, 0, 0, 0, 0, 0, 0, 0, 0, 0, 0, 0, 0, 0, 0, 0]
  ++ [2, 0xFF, 0]

/-- A 24-byte input that is just a header with version field 103,
archive-flags 0, folder count 0 and file count 0. -/
def c4bytes : Bytes :=
  [103, 0, 0, 0, 0, 0, 0, 0, 0, 0, 0, 0, 0, 0, 0, 0, 0, 0, 0, 0, 0, 0, 0, 0]

/-! ## Helper lemmas -/

theorem str_hash_foldl_lt : ∀ (s : Bytes) (acc : Nat), acc < 0x100000000 →
    s.foldl (fun hash char => (hash * 0x1003F % 0x100000000 + char) % 0x100000000) acc
      < 0x100000000
  | [], _, h => h
  | _ :: t, acc, _ => by
    simp only [List.foldl_cons]
    exact str_hash_foldl_lt t _ (Nat.mod_lt _ (by omega))

theorem str_hash_lt (s : Bytes) : str_hash s < 0x100000000 :=
  str_hash_foldl_lt s 0 (by omega)

theorem getD_lt_256 (l : Bytes) (hb : ∀ b ∈ l, b < 256) (i : Nat) : l.getD i 0 < 256 := by
  rcases h : l[i]? with _ | x
  · simp [List.getD_eq_getElem?_getD, h]
  · have hx : x ∈ l := List.getElem?_mem h
    have := hb x hx
    simp [List.getD_eq_getElem?_getD, h, this]

theorem getLastD_lt_256 (l : Bytes) (hb : ∀ b ∈ l, b < 256) : l.getLast?.getD 0 < 256 := by
  rcases h : l.getLast? with _ | x
  · simp
  · have hx : x ∈ l.getLast? := by simp [h, Option.mem_def]
    obtain ⟨hne, hxx⟩ := List.mem_getLast?_eq_getLast hx
    simp only [h, Option.getD_some]
    exact hb _ (hxx ▸ List.getLast_mem hne)

theorem headD_lt_256 (l : Bytes) (hb : ∀ b ∈ l, b < 256) : l.headD 0 < 256 := by
  cases l with
  | nil => simp
  | cons a t => simpa using hb a (by simp)

theorem land_shiftRight (m n k : Nat) : (m &&& n) >>> k = (m >>> k) &&& (n >>> k) :=
  Nat.eq_of_testBit_eq fun i => by simp [Nat.testBit_shiftRight, Nat.testBit_land]

theorem drop_one_dropLast_dropLast (l : Bytes) :
    (l.drop 1).dropLast.dropLast = (l.drop 1).take (l.length - 3) := by
  rw [List.dropLast_eq_take, List.dropLast_eq_take, List.take_take, List.length_take,
    List.length_drop]
  congr 1
  omega

/-! ## Claim theorems -/

/-- C3: for every byte string `s`, `str_hash` (the source's two-step
wrapping multiply then wrapping add) equals the spec's fold that starts at
0 and sets `acc = acc * 0x1003F + b` with one 32-bit truncation per byte,
and the hash of the empty string is 0. -/
theorem str_hash_rolling (s : Bytes) :
    str_hash s = rolling_hash_spec s ∧ str_hash [] = 0 := by
  refine ⟨?_, rfl⟩
  simp only [str_hash, rolling_hash_spec]
  congr 1
  funext acc b
  exact Nat.mod_add_mod ..

/-- C5 (code bug): a length byte of 0 does not produce a FormatError: the
source computes `length - 1` on a usize 0, underflowing into
`set_len(usize::MAX)` — undefined behaviour (a panic in debug builds) —
modelled as `ubSetLen`; with a non-zero length byte `L`, exactly `L`
further bytes are read and the first `L - 1` are the content, as the
claim states. -/
theorem read_bzstring_eval :
    read_bzstring [0, 9] = .error .ubSetLen ∧
    read_bzstring [5, 97, 98, 99, 100, 0] = .ok ([97, 98, 99, 100], []) ∧
    read_bzstring [2, 97] = .error .ioError := by
  decide

/-- C4 (code bug): `v104` performs no version check at all.  A 24-byte
input whose header has version field 103 is decoded successfully into an
archive model instead of being rejected up front with an
UnsupportedVersionError. -/
theorem v104_accepts_wrong_version :
    v104 c4bytes = .ok ⟨⟨103, 0, 0, 0, 0, 0⟩, [], []⟩ := by
  decide

/-- C6 (code bug): when the decoded folder name's hash is absent from the
folder map the decode does not return a FormatError value; the source
panics on `Option::unwrap`.  In `c6bytes` the single folder record stores
hash 5 while the name "aa" hashes to 1627545953, which is not a key of
the map. -/
theorem v104_hash_mismatch_panics :
    v104 c6bytes = .error .panicUnwrapNone ∧
    tes4_hash [97, 97] [] = .ok 1627545953 ∧
    BSAHashMap.find? [(5, (⟨0, 0⟩ : BSAFolder))] 1627545953 = none := by
  decide

/-- C7 (code bug): when the decoded folder-name bytes are not valid UTF-8
the decode does not return an EncodingError value; the source panics on
`Result::unwrap` of `CStr::to_str`.  In `c7bytes` the folder name decodes
to the single byte 0xFE, which is not valid UTF-8. -/
theorem v104_invalid_utf8_panics :
    v104 c7bytes = .error .panicUnwrapErr ∧ utf8Valid [0xFE] = false := by
  decide

/-- C1 (counterexample): the name "aéa" (bytes `61 C3 A9 61`) is a valid
UTF-8 string of byte length 4, yet `tes4_hash` returns no value for it:
the slice `&name[1..len-2]` ends inside the two-byte character and the
source panics, so the claim's description of the returned value is false
for this name. -/
theorem tes4_hash_char_boundary_panic :
    utf8Valid [0x61, 0xC3, 0xA9, 0x61] = true ∧
    tes4_hash [0x61, 0xC3, 0xA9, 0x61] [] = .error .panicSliceBoundary := by
  decide

/-- C2 (counterexample): the extension "anif" (bytes `61 6E 69 66`) is not
one of `.nif`, `.kf`, `.dds`, `.wav`, so by the claim the result should be
only the additive hash `0 + str_hash(ext) << 32` (for an empty name); but
the source matches `&ext[1..]` = "nif" and applies the second transform
anyway, so the result differs from the additive hash. -/
theorem tes4_hash_ext_ignores_first_byte :
    [0x61, 0x6E, 0x69, 0x66] ≠ [0x2E, 0x6E, 0x69, 0x66] ∧
    [0x61, 0x6E, 0x69, 0x66] ≠ [0x2E, 0x6B, 0x66] ∧
    [0x61, 0x6E, 0x69, 0x66] ≠ [0x2E, 0x64, 0x64, 0x73] ∧
    [0x61, 0x6E, 0x69, 0x66] ≠ [0x2E, 0x77, 0x61, 0x76] ∧
    tes4_hash [] [0x61, 0x6E, 0x69, 0x66] ≠
      .ok ((0 + str_hash [0x61, 0x6E, 0x69, 0x66] * 0x100000000) % 0x10000000000000000) := by
  decide

/-- C1 (amended): for every name of byte values on which the source's
string slice does not panic (byte positions 1 and `len - 2` are char
boundaries whenever the length exceeds 3), `tes4_hash` with empty
extension returns 0 for the empty name; otherwise its low 32 bits are the
little-endian u32 built from the last byte, the second-to-last byte (or 0
when the name has fewer than two bytes), the length as a single byte and
the first byte, and its high 32 bits are the rolling hash of the name
without its first byte and its last two bytes when the length exceeds 3,
and 0 otherwise. -/
theorem tes4_hash_empty_ext_spec (name : Bytes)
    (hb : ∀ b ∈ name, b < 256)
    (hcb : 3 < name.length →
      (isCharBoundary name 1 && isCharBoundary name (name.length - 2)) = true) :
    ∃ h, tes4_hash name [] = Except.ok h ∧
      (name = [] → h = 0) ∧
      (name ≠ [] →
        h % 0x100000000 =
          name.getLast?.getD 0
          + (if name.length < 2 then 0 else name.getD (name.length - 2) 0) * 0x100
          + name.length % 0x100 * 0x10000
          + name.headD 0 * 0x1000000
        ∧ h / 0x100000000 =
          (if 3 < name.length then str_hash ((name.drop 1).dropLast.dropLast) else 0)) := by
  by_cases hne : name = []
  · subst hne
    exact ⟨0, by decide, fun _ => rfl, fun hc => absurd rfl hc⟩
  · have hlast := getLastD_lt_256 name hb
    have hhead := headD_lt_256 name hb
    have hse : (if 2 ≤ name.length then name.getD (name.length - 2) 0 else 0) < 256 := by
      split
      · exact getD_lt_256 name hb _
      · omega
    have hg : name.getD (name.length - 2) 0 < 256 := getD_lt_256 name hb _
    have hlenb : name.length % 0x100 < 256 := Nat.mod_lt _ (by omega)
    by_cases h3 : 3 < name.length
    · have hbd := hcb h3
      have hmid := str_hash_lt ((name.drop 1).take (name.length - 3))
      have htn : tes4NameHash name =
          .ok ((name.getLast?.getD 0
            + (if 2 ≤ name.length then name.getD (name.length - 2) 0 else 0) * 0x100
            + name.length % 0x100 * 0x10000
            + name.headD 0 * 0x1000000)
            + str_hash ((name.drop 1).take (name.length - 3)) * 0x100000000) := by
        simp only [tes4NameHash, if_neg hne, if_pos h3, if_pos hbd]
        congr 1
        exact Nat.mod_eq_of_lt (by omega)
      refine ⟨(name.getLast?.getD 0
          + (if 2 ≤ name.length then name.getD (name.length - 2) 0 else 0) * 0x100
          + name.length % 0x100 * 0x10000
          + name.headD 0 * 0x1000000)
          + str_hash ((name.drop 1).take (name.length - 3)) * 0x100000000,
        ?_, fun hc => absurd hc hne, fun _ => ⟨?_, ?_⟩⟩
      · unfold tes4_hash
        rw [htn]
        rfl
      · rw [if_pos (show 2 ≤ name.length by omega),
          if_neg (show ¬name.length < 2 by omega)]
        omega
      · rw [if_pos h3, drop_one_dropLast_dropLast]
        omega
    · have htn : tes4NameHash name =
          .ok (name.getLast?.getD 0
            + (if 2 ≤ name.length then name.getD (name.length - 2) 0 else 0) * 0x100
            + name.length % 0x100 * 0x10000
            + name.headD 0 * 0x1000000) := by
        simp only [tes4NameHash, if_neg hne, if_neg h3]
      refine ⟨name.getLast?.getD 0
          + (if 2 ≤ name.length then name.getD (name.length - 2) 0 else 0) * 0x100
          + name.length % 0x100 * 0x10000
          + name.headD 0 * 0x1000000,
        ?_, fun hc => absurd hc hne, fun _ => ⟨?_, ?_⟩⟩
      · unfold tes4_hash
        rw [htn]
        rfl
      · by_cases h2 : 2 ≤ name.length
        · rw [if_pos h2, if_neg (show ¬name.length < 2 by omega)]
          omega
        · rw [if_neg h2, if_pos (show name.length < 2 by omega)]
          omega
      · rw [if_neg h3]
        omega

/-- C1 (witness): the amended specification evaluated at the four-byte
name "abcd". -/
theorem tes4_hash_empty_ext_spec_witness :
    ∃ h, tes4_hash [97, 98, 99, 100] [] = Except.ok h ∧
      ([97, 98, 99, 100] = ([] : Bytes) → h = 0) ∧
      ([97, 98, 99, 100] ≠ ([] : Bytes) →
        h % 0x100000000 =
          ([97, 98, 99, 100] : Bytes).getLast?.getD 0
          + (if ([97, 98, 99, 100] : Bytes).length < 2 then 0
             else ([97, 98, 99, 100] : Bytes).getD (([97, 98, 99, 100] : Bytes).length - 2) 0)
            * 0x100
          + ([97, 98, 99, 100] : Bytes).length % 0x100 * 0x10000
          + ([97, 98, 99, 100] : Bytes).headD 0 * 0x1000000
        ∧ h / 0x100000000 =
          (if 3 < ([97, 98, 99, 100] : Bytes).length
           then str_hash ((([97, 98, 99, 100] : Bytes).drop 1).dropLast.dropLast) else 0)) :=
  tes4_hash_empty_ext_spec [97, 98, 99, 100] (by decide) (by decide)

/-- C2 (amended): for every name whose name-stage hash is computed without
a panic and every non-empty extension whose byte position 1 is a char
boundary, `tes4_hash` first adds `str_hash(ext)` shifted into the high 32
bits of the u64 result and then applies the spec's second transform with
the index determined by the extension's bytes after its first byte
(`nif` → 1, `kf` → 2, `dds` → 3, `wav` → 4, anything else → 0, in which
case the transform is the identity and the result is only the additive
hash). -/
theorem tes4_hash_ext_stage (name ext : Bytes) (hext : ext ≠ [])
    (hbe : isCharBoundary ext 1 = true) (h0 : Nat)
    (hname : tes4NameHash name = Except.ok h0) :
    tes4_hash name ext =
      Except.ok (c2Transform (extIndex ext)
        ((h0 + str_hash ext * 0x100000000) % 0x10000000000000000)) := by
  unfold tes4_hash
  rw [hname]
  simp only [if_neg hext, if_pos hbe]
  by_cases hi : extIndex ext = 0
  · simp [c2Transform, hi]
  · simp only [c2Transform, if_neg hi]
    have e1 : ∀ h : Nat, (h &&& 0xFF000000) >>> 24 = h >>> 24 &&& 0xFF := by
      intro h
      rw [land_shiftRight]
      norm_num [Nat.shiftRight_eq_div_pow]
    have e2 : ∀ h : Nat, (h &&& 0xFF00) >>> 8 = h >>> 8 &&& 0xFF := by
      intro h
      rw [land_shiftRight]
      norm_num [Nat.shiftRight_eq_div_pow]
    rw [e1, e2, Nat.mod_add_mod, Nat.mod_add_mod]

/-- C2 (witness): the amended specification evaluated at the empty name
and the extension ".nif". -/
theorem tes4_hash_ext_stage_witness :
    tes4_hash [] [0x2E, 0x6E, 0x69, 0x66] =
      Except.ok (c2Transform (extIndex [0x2E, 0x6E, 0x69, 0x66])
        ((0 + str_hash [0x2E, 0x6E, 0x69, 0x66] * 0x100000000) % 0x10000000000000000)) :=
  tes4_hash_ext_stage [] [0x2E, 0x6E, 0x69, 0x66] (by decide) (by decide) 0 (by decide)

theorem read_nul_string_ok : ∀ (s v s' : Bytes), read_nul_string s = .ok (v, s') →
    s = v ++ 0 :: s' ∧ ∀ b ∈ v, b ≠ 0 := by
  intro s
  induction s with
  | nil => intro v s' h; simp [read_nul_string] at h
  | cons b t ih =>
    intro v s' h
    by_cases hb : b = 0
    · subst hb
      simp only [read_nul_string, reduceIte, Except.ok.injEq, Prod.mk.injEq] at h
      obtain ⟨hv, hs⟩ := h
      subst hv
      subst hs
      simp
    · simp only [read_nul_string, if_neg hb] at h
      rcases ht : read_nul_string t with e | ⟨v1, s1⟩ <;> rw [ht] at h
      · simp at h
      · simp only [Except.ok.injEq, Prod.mk.injEq] at h
        obtain ⟨hv, hs⟩ := h
        obtain ⟨hdec, hnul⟩ := ih v1 s1 ht
        constructor
        · rw [← hv, ← hs]
          simp [hdec]
        · rw [← hv]
          intro x hx
          rcases List.mem_cons.mp hx with hx | hx
          · subst hx; exact hb
          · exact hnul x hx

theorem readFilenameListLoop_ok : ∀ (n : Nat) (s s' : Bytes),
    readFilenameListLoop n s = .ok s' →
    ∃ names : List Bytes, names.length = n ∧ (∀ nm ∈ names, ∀ b ∈ nm, b ≠ 0) ∧
      s = names.foldr (fun nm acc => nm ++ 0 :: acc) s' := by
  intro n
  induction n with
  | zero =>
    intro s s' h
    simp only [readFilenameListLoop, Except.ok.injEq] at h
    exact ⟨[], rfl, by simp, by simp [h]⟩
  | succ n ih =>
    intro s s' h
    simp only [readFilenameListLoop] at h
    rcases hr : read_nul_string s with e | ⟨v, s1⟩ <;> rw [hr] at h
    · simp at h
    · obtain ⟨hs, hv⟩ := read_nul_string_ok s v s1 hr
      obtain ⟨names, hlen, hnul, hdecomp⟩ := ih s1 s' h
      refine ⟨v :: names, by simp [hlen], ?_, by simp [hs, hdecomp]⟩
      intro nm hnm
      rcases List.mem_cons.mp hnm with hnm | hnm
      · subst hnm; exact hv
      · exact hnul nm hnm

/-- C8: the filename-list phase of `v104` reads, when archive-flags bit
0x2 is set and the phase succeeds, a prefix of the input that consists of
exactly `file_count` nul-terminated strings (each content nul-free,
followed by its terminator) and nothing else; when the bit is clear it
reads nothing at all and returns the input unchanged, so decoding
finishes right after the last per-folder file-record block. -/
theorem readOptionalFilenameList_spec (archive_flags file_count : Nat) (s : Bytes) :
    (archive_flags &&& 0x2 = 0 →
      readOptionalFilenameList archive_flags file_count s = .ok s) ∧
    (archive_flags &&& 0x2 ≠ 0 → ∀ s',
      readOptionalFilenameList archive_flags file_count s = .ok s' →
      ∃ names : List Bytes, names.length = file_count ∧
        (∀ nm ∈ names, ∀ b ∈ nm, b ≠ 0) ∧
        s = names.foldr (fun nm acc => nm ++ 0 :: acc) s') := by
  constructor
  · intro h
    simp [readOptionalFilenameList, h]
  · intro h s' h'
    simp only [readOptionalFilenameList, if_pos h] at h'
    exact readFilenameListLoop_ok _ _ _ h'

/-- C8 (witness): with flags bit 0x2 clear nothing is consumed; with it
set, the input `"hi\x00"` followed by a leftover byte is consumed as one
nul-terminated string. -/
theorem readOptionalFilenameList_spec_witness :
    readOptionalFilenameList 0 5 [1, 2, 3] = .ok [1, 2, 3] ∧
    (∃ names : List Bytes, names.length = 1 ∧
      (∀ nm ∈ names, ∀ b ∈ nm, b ≠ 0) ∧
      [104, 105, 0, 7] = names.foldr (fun nm acc => nm ++ 0 :: acc) [7]) :=
  ⟨(readOptionalFilenameList_spec 0 5 [1, 2, 3]).1 (by decide),
   (readOptionalFilenameList_spec 2 1 [104, 105, 0, 7]).2 (by decide) [7] (by decide)⟩

/-- C9 (amended): every decode yields exactly one terminal outcome — a
fully populated archive model whose stored header is the one decoded from
the input's first bytes, or a single `PError` outcome (which, for the
unwrap panics and the length-zero undefined behaviour, is an abort rather
than a returned error value); in neither case is a partially built model
observable. -/
theorem v104_terminal_result (s : Bytes) :
    (∃ m, v104 s = Except.ok m ∧ ∃ s₁, readBSAHeader s = Except.ok (m.header, s₁)) ∨
    (∃ e, v104 s = Except.error e) := by
  rcases h1 : readBSAHeader s with e | ⟨hdr, s1⟩
  · exact .inr ⟨e, by simp [v104, v104run, h1, Except.map]⟩
  · rcases h2 : v104body hdr.archive_flags hdr.folder_count hdr.file_count s1 with
      e | ⟨folders, files, s2⟩
    · exact .inr ⟨e, by simp [v104, v104run, h1, h2, Except.map]⟩
    · exact .inl ⟨⟨hdr, folders, files⟩, by simp [v104, v104run, h1, h2, Except.map],
        ⟨s1, rfl⟩⟩

/-- C9 (counterexample): on the input `c9bytes` (a folder name that is
not valid UTF-8) the decode neither returns an archive model nor a
returned error value: the source aborts with a `Result::unwrap` panic, so
the claim that every input yields a model or a single error value is
false. -/
theorem v104_panic_not_error_value :
    ¬ ((∃ m, v104 c9bytes = Except.ok m) ∨
       (∃ e, v104 c9bytes = Except.error e ∧ e.isReturnedError = true)) := by
  have h : v104 c9bytes = .error .panicUnwrapErr := by decide
  rintro (⟨m, hm⟩ | ⟨e, he, hr⟩)
  · rw [h] at hm
    cases hm
  · rw [h] at he
    cases he
    simp [PError.isReturnedError] at hr

theorem readU32_eq (l : Bytes) (h : 4 ≤ l.length) :
    readU32 l = .ok (u32v l, l.drop 4) := by
  rcases l with _ | ⟨a, _ | ⟨b, _ | ⟨c, _ | ⟨d, t⟩⟩⟩⟩
  · simp at h
  · simp at h
  · simp at h
  · simp at h
  · rfl

theorem readBSAHeader_eq (s : Bytes) (h : 24 ≤ s.length) :
    readBSAHeader s =
      .ok (⟨u32v s, u32v (s.drop 4), u32v (s.drop 8), u32v (s.drop 12),
        u32v (s.drop 16), u32v (s.drop 20)⟩, s.drop 24) := by
  rcases s with _ | ⟨b0, s⟩
  · simp at h
  rcases s with _ | ⟨b1, s⟩
  · simp at h
  rcases s with _ | ⟨b2, s⟩
  · simp at h
  rcases s with _ | ⟨b3, s⟩
  · simp at h
  rcases s with _ | ⟨b4, s⟩
  · simp at h
  rcases s with _ | ⟨b5, s⟩
  · simp at h
  rcases s with _ | ⟨b6, s⟩
  · simp at h
  rcases s with _ | ⟨b7, s⟩
  · simp at h
  rcases s with _ | ⟨b8, s⟩
  · simp at h
  rcases s with _ | ⟨b9, s⟩
  · simp at h
  rcases s with _ | ⟨b10, s⟩
  · simp at h
  rcases s with _ | ⟨b11, s⟩
  · simp at h
  rcases s with _ | ⟨b12, s⟩
  · simp at h
  rcases s with _ | ⟨b13, s⟩
  · simp at h
  rcases s with _ | ⟨b14, s⟩
  · simp at h
  rcases s with _ | ⟨b15, s⟩
  · simp at h
  rcases s with _ | ⟨b16, s⟩
  · simp at h
  rcases s with _ | ⟨b17, s⟩
  · simp at h
  rcases s with _ | ⟨b18, s⟩
  · simp at h
  rcases s with _ | ⟨b19, s⟩
  · simp at h
  rcases s with _ | ⟨b20, s⟩
  · simp at h
  rcases s with _ | ⟨b21, s⟩
  · simp at h
  rcases s with _ | ⟨b22, s⟩
  · simp at h
  rcases s with _ | ⟨b23, s⟩
  · simp at h
  rfl

theorem u32v_append (l x : Bytes) (h : 4 ≤ l.length) : u32v (l ++ x) = u32v l := by
  unfold u32v
  rw [List.getD_append _ _ _ _ (by omega), List.getD_append _ _ _ _ (by omega),
    List.getD_append _ _ _ _ (by omega), List.getD_append _ _ _ _ (by omega)]

/-- C10: two inputs that agree on the first 16 header bytes (version,
archive-flags, folder count, file count) and on everything after the
24-byte header, but may differ in the 8 bytes holding the aggregate
name-length totals, have the same decode outcome: `v104` succeeds on one
iff it succeeds on the other, and on success the decoded folder and file
maps are identical — the decoder never consults those bookkeeping
fields, which only survive in the stored header copy. -/
theorem v104_ignores_bookkeeping_fields (pre mid1 mid2 rest : Bytes)
    (hpre : pre.length = 16) (hm1 : mid1.length = 8) (hm2 : mid2.length = 8) :
    ((∃ m, v104 (pre ++ mid1 ++ rest) = Except.ok m) ↔
      (∃ m, v104 (pre ++ mid2 ++ rest) = Except.ok m)) ∧
    (∀ m1 m2, v104 (pre ++ mid1 ++ rest) = Except.ok m1 →
      v104 (pre ++ mid2 ++ rest) = Except.ok m2 →
      m1.folders = m2.folders ∧ m1.files = m2.files) := by
  have key : ∀ mid : Bytes, mid.length = 8 →
      readBSAHeader (pre ++ mid ++ rest) =
        .ok (⟨u32v pre, u32v (pre.drop 4), u32v (pre.drop 8), u32v (pre.drop 12),
          u32v ((pre ++ mid ++ rest).drop 16), u32v ((pre ++ mid ++ rest).drop 20)⟩,
          rest) := by
    intro mid hm
    have hL : 24 ≤ (pre ++ mid ++ rest).length := by
      simp only [List.length_append, hpre, hm]
      omega
    have hr24 : (pre ++ mid ++ rest).drop 24 = rest := by
      rw [show (24 : Nat) = (pre ++ mid).length from by simp [hpre, hm]]
      exact List.drop_left _ _
    have f0 : u32v (pre ++ mid ++ rest) = u32v pre := by
      rw [List.append_assoc]
      exact u32v_append _ _ (by omega)
    have f4 : u32v ((pre ++ mid ++ rest).drop 4) = u32v (pre.drop 4) := by
      rw [List.drop_append_of_le_length (by simp [hpre, hm]),
        List.drop_append_of_le_length (by omega), List.append_assoc]
      exact u32v_append _ _ (by simp [hpre])
    have f8 : u32v ((pre ++ mid ++ rest).drop 8) = u32v (pre.drop 8) := by
      rw [List.drop_append_of_le_length (by simp [hpre, hm]),
        List.drop_append_of_le_length (by omega), List.append_assoc]
      exact u32v_append _ _ (by simp [hpre])
    have f12 : u32v ((pre ++ mid ++ rest).drop 12) = u32v (pre.drop 12) := by
      rw [List.drop_append_of_le_length (by simp [hpre, hm]),
        List.drop_append_of_le_length (by omega), List.append_assoc]
      exact u32v_append _ _ (by simp [hpre])
    rw [readBSAHeader_eq _ hL, hr24, f0, f4, f8, f12]
  rcases hb : v104body (u32v (pre.drop 4)) (u32v (pre.drop 8)) (u32v (pre.drop 12)) rest with
    e | ⟨fo, fi, s'⟩
  · have hv1 : v104 (pre ++ mid1 ++ rest) = .error e := by
      simp only [v104, v104run, key mid1 hm1, hb, Except.map]
    have hv2 : v104 (pre ++ mid2 ++ rest) = .error e := by
      simp only [v104, v104run, key mid2 hm2, hb, Except.map]
    refine ⟨by simp only [hv1, hv2], ?_⟩
    intro m1 m2 hm1' hm2'
    rw [hv1] at hm1'
    cases hm1'
  · have hv1 : v104 (pre ++ mid1 ++ rest) =
        .ok ⟨⟨u32v pre, u32v (pre.drop 4), u32v (pre.drop 8), u32v (pre.drop 12),
          u32v ((pre ++ mid1 ++ rest).drop 16), u32v ((pre ++ mid1 ++ rest).drop 20)⟩,
          fo, fi⟩ := by
      simp only [v104, v104run, key mid1 hm1, hb, Except.map]
    have hv2 : v104 (pre ++ mid2 ++ rest) =
        .ok ⟨⟨u32v pre, u32v (pre.drop 4), u32v (pre.drop 8), u32v (pre.drop 12),
          u32v ((pre ++ mid2 ++ rest).drop 16), u32v ((pre ++ mid2 ++ rest).drop 20)⟩,
          fo, fi⟩ := by
      simp only [v104, v104run, key mid2 hm2, hb, Except.map]
    refine ⟨⟨fun _ => ⟨_, hv2⟩, fun _ => ⟨_, hv1⟩⟩, ?_⟩
    intro m1 m2 hm1' hm2'
    rw [hv1] at hm1'
    rw [hv2] at hm2'
    injection hm1' with h1
    injection hm2' with h2
    subst h1
    subst h2
    exact ⟨rfl, rfl⟩

/-- C10 (witness): a trivial archive (all counts zero) decoded with the
two bookkeeping totals all-zero versus all-nine. -/
theorem v104_ignores_bookkeeping_fields_witness :
    ((∃ m, v104 ([0, 0, 0, 0, 0, 0, 0, 0, 0, 0, 0, 0, 0, 0, 0, 0]
        ++ [0, 0, 0, 0, 0, 0, 0, 0] ++ []) = Except.ok m) ↔
      (∃ m, v104 ([0, 0, 0, 0, 0, 0, 0, 0, 0, 0, 0, 0, 0, 0, 0, 0]
        ++ [9, 9, 9, 9, 9, 9, 9, 9] ++ []) = Except.ok m)) ∧
    (∀ m1 m2, v104 ([0, 0, 0, 0, 0, 0, 0, 0, 0, 0, 0, 0, 0, 0, 0, 0]
        ++ [0, 0, 0, 0, 0, 0, 0, 0] ++ []) = Except.ok m1 →
      v104 ([0, 0, 0, 0, 0, 0, 0, 0, 0, 0, 0, 0, 0, 0, 0, 0]
        ++ [9, 9, 9, 9, 9, 9, 9, 9] ++ []) = Except.ok m2 →
      m1.folders = m2.folders ∧ m1.files = m2.files) :=
  v104_ignores_bookkeeping_fields [0, 0, 0, 0, 0, 0, 0, 0, 0, 0, 0, 0, 0, 0, 0, 0]
    [0, 0, 0, 0, 0, 0, 0, 0] [9, 9, 9, 9, 9, 9, 9, 9] [] (by decide) (by decide) (by decide)
